import Mathlib

/-!
Verification of the password-vault subsystem of the application-resume
backend: the envelope codec (chiffrer / dechiffrer in
serveur/routes/motsDePasse.js), the access gate (verifierToken /
verifierPin in serveur/middleware/auth.js), and the credential service
(serveur/services/password.ts).

Plaintext secrets are modelled at the byte level (the UTF-8 encoding the
source applies before encryption), as lists of naturals below 256.
Envelopes are modelled as lists of characters (the JavaScript string the
source produces).
-/

/-- Alphabet used by Node's Buffer hex encoding: lowercase hex digits. -/
def hexAlphabet : List Char := "0123456789abcdef".data

/-- Hex digit for a value below 16, as produced by Buffer.toString of the
source (lowercase). -/
def hexDigitOf (n : Nat) : Char := hexAlphabet.getD n '0'

/-- Hex encoding of one byte: two lowercase hex characters, high nibble
first, as in Node's Buffer.toString with the hex encoding. -/
def byteToHex (b : Nat) : List Char := [hexDigitOf (b / 16), hexDigitOf (b % 16)]

/-- Hex encoding of a byte sequence, as in Buffer.toString of the source. -/
def bytesToHex : List Nat → List Char
  | [] => []
  | b :: bs => byteToHex b ++ bytesToHex bs

/-- Numeric value of a hex character; Node's Buffer.from with the hex
encoding accepts digits and both letter cases. -/
def hexVal (c : Char) : Option Nat :=
  if '0' ≤ c ∧ c ≤ '9' then some (c.toNat - '0'.toNat)
  else if 'a' ≤ c ∧ c ≤ 'f' then some (c.toNat - 'a'.toNat + 10)
  else if 'A' ≤ c ∧ c ≤ 'F' then some (c.toNat - 'A'.toNat + 10)
  else none

/-- Hex decoding as performed by Buffer.from with the hex encoding in the
source: bytes are read two characters at a time and decoding stops (keeping
the bytes already produced) at the first invalid pair or at an odd trailing
character. -/
def hexDecode : List Char → List Nat
  | c1 :: c2 :: rest =>
    match hexVal c1, hexVal c2 with
    | some h, some l => (16 * h + l) :: hexDecode rest
    | _, _ => []
  | _ => []

/-- Split of a character list on a separator, with the semantics of
JavaScript String.split used by dechiffrer: splitting the empty string
yields one empty segment, and every separator occurrence starts a new
segment. -/
def splitOnChar (sep : Char) : List Char → List (List Char)
  | [] => [[]]
  | c :: cs =>
    if c = sep then [] :: splitOnChar sep cs
    else
      match splitOnChar sep cs with
      | [] => [[c]]
      | w :: ws => (c :: w) :: ws

theorem splitOnChar_ne_nil (sep : Char) (l : List Char) : splitOnChar sep l ≠ [] := by
  induction l with
  | nil => simp [splitOnChar]
  | cons c cs ih =>
    simp only [splitOnChar]
    split
    · simp
    · cases h : splitOnChar sep cs with
      | nil => exact absurd h ih
      | cons w ws => simp

theorem splitOnChar_no_sep (sep : Char) (l : List Char) (h : ∀ c ∈ l, c ≠ sep) :
    splitOnChar sep l = [l] := by
  induction l with
  | nil => rfl
  | cons c cs ih =>
    have hc : c ≠ sep := h c (List.mem_cons_self c cs)
    have hcs : splitOnChar sep cs = [cs] := ih (fun x hx => h x (List.mem_cons_of_mem c hx))
    simp [splitOnChar, hc, hcs]

theorem splitOnChar_append_sep (sep : Char) (a rest : List Char) (h : ∀ c ∈ a, c ≠ sep) :
    splitOnChar sep (a ++ sep :: rest) = a :: splitOnChar sep rest := by
  induction a with
  | nil => simp [splitOnChar]
  | cons c cs ih =>
    have hc : c ≠ sep := h c (List.mem_cons_self c cs)
    have hcs := ih (fun x hx => h x (List.mem_cons_of_mem c hx))
    simp only [List.cons_append, splitOnChar, if_neg hc, List.append_eq, hcs]

theorem hexDigitOf_mem (n : Nat) (h : n < 16) : hexDigitOf n ∈ hexAlphabet := by
  interval_cases n <;> decide

theorem hexVal_hexDigitOf (n : Nat) (h : n < 16) : hexVal (hexDigitOf n) = some n := by
  interval_cases n <;> decide

theorem mem_hexAlphabet_ne_colon : ∀ c ∈ hexAlphabet, c ≠ ':' := by decide

theorem hexChar_round : ∀ c ∈ hexAlphabet,
    (hexVal c).isSome = true ∧ (hexVal c).getD 0 < 16 ∧
      hexDigitOf ((hexVal c).getD 0) = c := by decide

theorem hexVal_isSome_of_mem (c : Char) (h : c ∈ hexAlphabet) :
    ∃ v, hexVal c = some v ∧ v < 16 ∧ hexDigitOf v = c := by
  have h2 := hexChar_round c h
  cases ho : hexVal c with
  | none => rw [ho] at h2; simp at h2
  | some v =>
    rw [ho] at h2
    exact ⟨v, rfl, by simpa using h2.2.1, by simpa using h2.2.2⟩

theorem bytesToHex_mem (bs : List Nat) (hb : ∀ b ∈ bs, b < 256) :
    ∀ c ∈ bytesToHex bs, c ∈ hexAlphabet := by
  induction bs with
  | nil => simp [bytesToHex]
  | cons b bs ih =>
    intro c hc
    have hblt : b < 256 := hb b (List.mem_cons_self b bs)
    simp only [bytesToHex, byteToHex, List.cons_append, List.mem_cons] at hc
    rcases hc with h1 | h2 | h3
    · exact h1 ▸ hexDigitOf_mem _ (by omega)
    · exact h2 ▸ hexDigitOf_mem _ (by omega)
    · exact ih (fun x hx => hb x (List.mem_cons_of_mem b hx)) c (by simpa using h3)

theorem bytesToHex_length (bs : List Nat) : (bytesToHex bs).length = 2 * bs.length := by
  induction bs with
  | nil => rfl
  | cons b bs ih => simp [bytesToHex, byteToHex, ih]; omega

theorem hexDecode_bytesToHex (bs : List Nat) (hb : ∀ b ∈ bs, b < 256) :
    hexDecode (bytesToHex bs) = bs := by
  induction bs with
  | nil => rfl
  | cons b bs ih =>
    have hblt : b < 256 := hb b (List.mem_cons_self b bs)
    have h1 : hexVal (hexDigitOf (b / 16)) = some (b / 16) := hexVal_hexDigitOf _ (by omega)
    have h2 : hexVal (hexDigitOf (b % 16)) = some (b % 16) := hexVal_hexDigitOf _ (by omega)
    simp only [bytesToHex, byteToHex, List.cons_append, List.append_eq, List.nil_append,
      hexDecode, h1, h2]
    rw [ih (fun x hx => hb x (List.mem_cons_of_mem b hx))]
    congr 1
    omega

theorem bytesToHex_hexDecode : ∀ h : List Char, (∀ c ∈ h, c ∈ hexAlphabet) →
    h.length % 2 = 0 → bytesToHex (hexDecode h) = h
  | [], _, _ => rfl
  | [c], _, heven => by simp at heven
  | c1 :: c2 :: rest, hmem, heven => by
    obtain ⟨v1, hv1, hlt1, hd1⟩ := hexVal_isSome_of_mem c1 (hmem c1 (by simp))
    obtain ⟨v2, hv2, hlt2, hd2⟩ := hexVal_isSome_of_mem c2 (hmem c2 (by simp))
    have hrest : bytesToHex (hexDecode rest) = rest :=
      bytesToHex_hexDecode rest (fun c hc => hmem c (by simp [hc]))
        (by simp only [List.length_cons] at heven; omega)
    have hdiv : (16 * v1 + v2) / 16 = v1 := by omega
    have hmod : (16 * v1 + v2) % 16 = v2 := by omega
    simp only [hexDecode, hv1, hv2, bytesToHex, byteToHex, hdiv, hmod, hd1, hd2,
      List.cons_append, List.nil_append, hrest]

/-- Modelled from the spec: the aes-256-gcm primitive of Node's crypto
module used by serveur/routes/motsDePasse.js is an external library, not
part of the repository. Its AEAD behaviour is idealized here: rawEnc is the
keystream encryption of a byte sequence under a nonce, rawDec its inverse,
and mac the authentication tag computed over the ciphertext, assumed
collision-free per nonce (the unforgeability the spec relies on). The
symmetric key (scryptSync of the server secret with the fixed salt, derived
once at module load) is fixed inside the primitive. -/
structure GcmPrimitive where
  rawEnc : List Nat → List Nat → List Nat
  rawDec : List Nat → List Nat → List Nat
  mac : List Nat → List Nat → List Nat
  rawDec_rawEnc : ∀ iv p, rawDec iv (rawEnc iv p) = p
  mac_inj : ∀ iv c c', mac iv c = mac iv c' → c = c'
  rawEnc_bytes : ∀ iv p, (∀ b ∈ p, b < 256) → ∀ b ∈ rawEnc iv p, b < 256
  mac_bytes : ∀ iv c, (∀ b ∈ c, b < 256) → ∀ b ∈ mac iv c, b < 256

/-- Trivial concrete instance of the idealized primitive, used to witness
the codec theorems on concrete inputs. -/
def idGcm : GcmPrimitive where
  rawEnc := fun _ p => p
  rawDec := fun _ c => c
  mac := fun _ c => c
  rawDec_rawEnc := fun _ _ => rfl
  mac_inj := fun _ _ _ h => h
  rawEnc_bytes := fun _ _ h => h
  mac_bytes := fun _ _ h => h

/-- Hex of the ciphertext segment produced for plaintext p under nonce iv
(the chiffre variable of chiffrer in motsDePasse.js, hex encoded). -/
def ctHexOf (A : GcmPrimitive) (iv p : List Nat) : List Char :=
  bytesToHex (A.rawEnc iv p)

/-- Hex of the authentication-tag segment (cipher.getAuthTag of chiffrer in
motsDePasse.js, hex encoded): the tag of the GCM run over the ciphertext. -/
def tagHexOf (A : GcmPrimitive) (iv p : List Nat) : List Char :=
  bytesToHex (A.mac iv (A.rawEnc iv p))

/-- Encryption envelope builder of serveur/routes/motsDePasse.js (chiffrer,
lines 14-20): hex(iv) : hex(ciphertext) : hex(tag), colon separated. The iv
is the fresh 16-byte random nonce generated per call; it is a parameter
here. -/
def chiffrer (A : GcmPrimitive) (iv p : List Nat) : List Char :=
  bytesToHex iv ++ ':' :: (ctHexOf A iv p ++ ':' :: tagHexOf A iv p)

/-- Error outcomes of dechiffrer in serveur/routes/motsDePasse.js.
malformedEnvelope is the TypeError Node raises when a destructured segment
is undefined (fewer than three colon-separated segments) and reaches
Buffer.from; decryptionFailed is the authentication failure raised by
decipher.final when the GCM tag does not verify. Both are thrown, so
dechiffrer never returns a plaintext in these cases. -/
inductive DechiffrerErreur where
  | malformedEnvelope
  | decryptionFailed
deriving DecidableEq

/-- Decryption of serveur/routes/motsDePasse.js (dechiffrer, lines 22-30):
split on colon, destructure the first three segments, hex-decode each, then
run GCM decryption with setAuthTag; the integrity check recomputes the tag
over the ciphertext and fails closed on mismatch. -/
def dechiffrer (A : GcmPrimitive) (texteChiffre : List Char) :
    Except DechiffrerErreur (List Nat) :=
  match splitOnChar ':' texteChiffre with
  | ivHex :: chiffreHex :: tagHex :: _ =>
    let iv := hexDecode ivHex
    let chiffre := hexDecode chiffreHex
    let tag := hexDecode tagHex
    if A.mac iv chiffre = tag then Except.ok (A.rawDec iv chiffre)
    else Except.error DechiffrerErreur.decryptionFailed
  | _ => Except.error DechiffrerErreur.malformedEnvelope

/-- Helper: the split of a well-formed three-segment envelope. -/
theorem splitOnChar_chiffrer (A : GcmPrimitive) (iv p : List Nat)
    (hiv : ∀ b ∈ iv, b < 256) (hp : ∀ b ∈ p, b < 256) :
    splitOnChar ':' (chiffrer A iv p) =
      [bytesToHex iv, ctHexOf A iv p, tagHexOf A iv p] := by
  have hct : ∀ b ∈ A.rawEnc iv p, b < 256 := A.rawEnc_bytes iv p hp
  have htag : ∀ b ∈ A.mac iv (A.rawEnc iv p), b < 256 :=
    A.mac_bytes iv (A.rawEnc iv p) hct
  have h1 : ∀ c ∈ bytesToHex iv, c ≠ ':' :=
    fun c hc => mem_hexAlphabet_ne_colon c (bytesToHex_mem iv hiv c hc)
  have h2 : ∀ c ∈ ctHexOf A iv p, c ≠ ':' :=
    fun c hc => mem_hexAlphabet_ne_colon c (bytesToHex_mem _ hct c hc)
  have h3 : ∀ c ∈ tagHexOf A iv p, c ≠ ':' :=
    fun c hc => mem_hexAlphabet_ne_colon c (bytesToHex_mem _ htag c hc)
  rw [chiffrer, splitOnChar_append_sep ':' _ _ h1, splitOnChar_append_sep ':' _ _ h2,
    splitOnChar_no_sep ':' _ h3]

/-- C2: envelope codec round-trip. For every plaintext byte sequence (the
UTF-8 bytes of an arbitrary string, including the empty string, unicode
strings and strings containing colons) and every nonce, decrypting the
envelope produced by chiffrer yields the plaintext again:
dechiffrer (chiffrer p) = ok p. The symmetric key is the one fixed inside
the primitive, derived once from the server secret. -/
theorem dechiffrer_chiffrer (A : GcmPrimitive) (iv p : List Nat)
    (hiv : ∀ b ∈ iv, b < 256) (hp : ∀ b ∈ p, b < 256) :
    dechiffrer A (chiffrer A iv p) = Except.ok p := by
  have hct : ∀ b ∈ A.rawEnc iv p, b < 256 := A.rawEnc_bytes iv p hp
  have htag : ∀ b ∈ A.mac iv (A.rawEnc iv p), b < 256 :=
    A.mac_bytes iv (A.rawEnc iv p) hct
  rw [dechiffrer, splitOnChar_chiffrer A iv p hiv hp]
  simp only [ctHexOf, tagHexOf, hexDecode_bytesToHex iv hiv,
    hexDecode_bytesToHex _ hct, hexDecode_bytesToHex _ htag,
    A.rawDec_rawEnc]
  simp

/-- Witness for C2 at a concrete input: the bytes of a two-byte secret
round-trip through the codec with the concrete primitive instance. -/
theorem dechiffrer_chiffrer_witness :
    dechiffrer idGcm (chiffrer idGcm [0, 255] [104, 105]) = Except.ok [104, 105] :=
  dechiffrer_chiffrer idGcm [0, 255] [104, 105] (by decide) (by decide)

/-- C6: malformed envelope handling. Whenever the colon-split of the input
has fewer than three segments, dechiffrer fails with the malformed-envelope
error (in the source, the destructured missing segment is undefined and
Buffer.from throws before any decryption step) and never returns a
plaintext. -/
theorem dechiffrer_malformed (A : GcmPrimitive) (s : List Char)
    (h : (splitOnChar ':' s).length < 3) :
    dechiffrer A s = Except.error DechiffrerErreur.malformedEnvelope := by
  cases hsp : splitOnChar ':' s with
  | nil => simp [dechiffrer, hsp]
  | cons a t =>
    cases t with
    | nil => simp [dechiffrer, hsp]
    | cons b t2 =>
      cases t2 with
      | nil => simp [dechiffrer, hsp]
      | cons c t3 =>
        rw [hsp] at h
        simp only [List.length_cons] at h
        omega

/-- Witness for C6 at the concrete input named by the spec. -/
theorem dechiffrer_malformed_witness :
    dechiffrer idGcm ("not-a-valid-envelope".data) =
      Except.error DechiffrerErreur.malformedEnvelope :=
  dechiffrer_malformed idGcm _ (by decide)

theorem getD_set_self : ∀ (l : List Char) (i : Nat) (d x : Char), i < l.length →
    (l.set i d).getD i x = d
  | _ :: _, 0, _, _, _ => rfl
  | _ :: l, i + 1, d, x, h =>
    getD_set_self l i d x (by simpa using Nat.lt_of_succ_lt_succ h)

theorem set_ne_of_getD (l : List Char) (i : Nat) (d : Char) (hi : i < l.length)
    (hne : d ≠ l.getD i ' ') : l.set i d ≠ l := by
  intro heq
  have h1 : (l.set i d).getD i ' ' = d := getD_set_self l i d ' ' hi
  rw [heq] at h1
  exact hne h1.symm

theorem mem_set_or : ∀ (l : List Char) (i : Nat) (d x : Char), x ∈ l.set i d →
    x ∈ l ∨ x = d
  | [], _, _, _, h => by simp [List.set] at h
  | a :: l, 0, d, x, h => by
    simp only [List.set, List.mem_cons] at h
    rcases h with h | h
    · exact Or.inr h
    · exact Or.inl (List.mem_cons_of_mem a h)
  | a :: l, i + 1, d, x, h => by
    simp only [List.set, List.mem_cons] at h
    rcases h with h | h
    · exact Or.inl (h ▸ List.mem_cons_self a l)
    · rcases mem_set_or l i d x h with h2 | h2
      · exact Or.inl (List.mem_cons_of_mem a h2)
      · exact Or.inr h2

/-- Helper: a tampered hex segment (one character replaced by a different
hex character) decodes to a byte sequence different from the original. -/
theorem hexDecode_set_ne (bs : List Nat) (hb : ∀ b ∈ bs, b < 256) (i : Nat)
    (d : Char) (hi : i < (bytesToHex bs).length) (hd : d ∈ hexAlphabet)
    (hne : d ≠ (bytesToHex bs).getD i ' ') :
    hexDecode ((bytesToHex bs).set i d) ≠ bs := by
  intro heq
  have hmem : ∀ c ∈ (bytesToHex bs).set i d, c ∈ hexAlphabet := by
    intro c hc
    rcases mem_set_or _ _ _ _ hc with h | h
    · exact bytesToHex_mem bs hb c h
    · exact h ▸ hd
  have heven : ((bytesToHex bs).set i d).length % 2 = 0 := by
    rw [List.length_set, bytesToHex_length]
    omega
  have hround : bytesToHex (hexDecode ((bytesToHex bs).set i d)) =
      (bytesToHex bs).set i d := bytesToHex_hexDecode _ hmem heven
  rw [heq] at hround
  exact set_ne_of_getD (bytesToHex bs) i d hi hne hround.symm

/-- C3: tamper detection. For every valid envelope produced by chiffrer,
replacing any single hex character of the ciphertext segment or of the tag
segment by a different hex character makes dechiffrer fail with the
decryption error; in particular dechiffrer never silently returns a
plaintext different from the one originally encrypted. -/
theorem dechiffrer_tamper (A : GcmPrimitive) (iv p : List Nat)
    (hiv : ∀ b ∈ iv, b < 256) (hp : ∀ b ∈ p, b < 256) :
    (∀ i d, i < (ctHexOf A iv p).length → d ∈ hexAlphabet →
      d ≠ (ctHexOf A iv p).getD i ' ' →
      dechiffrer A (bytesToHex iv ++ ':' ::
          ((ctHexOf A iv p).set i d ++ ':' :: tagHexOf A iv p)) =
        Except.error DechiffrerErreur.decryptionFailed) ∧
    (∀ i d, i < (tagHexOf A iv p).length → d ∈ hexAlphabet →
      d ≠ (tagHexOf A iv p).getD i ' ' →
      dechiffrer A (bytesToHex iv ++ ':' ::
          (ctHexOf A iv p ++ ':' :: (tagHexOf A iv p).set i d)) =
        Except.error DechiffrerErreur.decryptionFailed) := by
  have hct : ∀ b ∈ A.rawEnc iv p, b < 256 := A.rawEnc_bytes iv p hp
  have htag : ∀ b ∈ A.mac iv (A.rawEnc iv p), b < 256 :=
    A.mac_bytes iv (A.rawEnc iv p) hct
  have hivs : ∀ c ∈ bytesToHex iv, c ≠ ':' :=
    fun c hc => mem_hexAlphabet_ne_colon c (bytesToHex_mem iv hiv c hc)
  have hcts : ∀ c ∈ ctHexOf A iv p, c ≠ ':' :=
    fun c hc => mem_hexAlphabet_ne_colon c (bytesToHex_mem _ hct c hc)
  have htags : ∀ c ∈ tagHexOf A iv p, c ≠ ':' :=
    fun c hc => mem_hexAlphabet_ne_colon c (bytesToHex_mem _ htag c hc)
  constructor
  · intro i d hi hd hne
    have hset : ∀ c ∈ (ctHexOf A iv p).set i d, c ≠ ':' := by
      intro c hc
      rcases mem_set_or _ _ _ _ hc with h | h
      · exact hcts c h
      · exact h ▸ mem_hexAlphabet_ne_colon d hd
    rw [dechiffrer, splitOnChar_append_sep ':' _ _ hivs,
      splitOnChar_append_sep ':' _ _ hset, splitOnChar_no_sep ':' _ htags]
    have hdec : hexDecode ((ctHexOf A iv p).set i d) ≠ A.rawEnc iv p :=
      hexDecode_set_ne (A.rawEnc iv p) hct i d hi hd hne
    have hmacne : A.mac (hexDecode (bytesToHex iv))
        (hexDecode ((ctHexOf A iv p).set i d)) ≠ hexDecode (tagHexOf A iv p) := by
      rw [hexDecode_bytesToHex iv hiv, tagHexOf, hexDecode_bytesToHex _ htag]
      intro heq
      exact hdec (A.mac_inj iv _ _ heq)
    simp only [if_neg hmacne]
  · intro i d hi hd hne
    have hset : ∀ c ∈ (tagHexOf A iv p).set i d, c ≠ ':' := by
      intro c hc
      rcases mem_set_or _ _ _ _ hc with h | h
      · exact htags c h
      · exact h ▸ mem_hexAlphabet_ne_colon d hd
    rw [dechiffrer, splitOnChar_append_sep ':' _ _ hivs,
      splitOnChar_append_sep ':' _ _ hcts, splitOnChar_no_sep ':' _ hset]
    have hdec : hexDecode ((tagHexOf A iv p).set i d) ≠ A.mac iv (A.rawEnc iv p) :=
      hexDecode_set_ne (A.mac iv (A.rawEnc iv p)) htag i d hi hd hne
    have hmacne : A.mac (hexDecode (bytesToHex iv)) (hexDecode (ctHexOf A iv p)) ≠
        hexDecode ((tagHexOf A iv p).set i d) := by
      rw [hexDecode_bytesToHex iv hiv, ctHexOf, hexDecode_bytesToHex _ hct]
      exact fun heq => hdec heq.symm
    simp only [if_neg hmacne]

/-- Witness for C3 at a concrete input: flipping the first hex character of
the ciphertext segment of the envelope of the two-byte plaintext makes
decryption fail. -/
theorem dechiffrer_tamper_witness :
    dechiffrer idGcm (bytesToHex [0, 255] ++ ':' ::
        ((ctHexOf idGcm [0, 255] [104, 105]).set 0 'f' ++ ':' ::
          tagHexOf idGcm [0, 255] [104, 105])) =
      Except.error DechiffrerErreur.decryptionFailed :=
  (dechiffrer_tamper idGcm [0, 255] [104, 105] (by decide) (by decide)).1
    0 'f' (by decide) (by decide) (by decide)

/-- Character-class alphabets of generateSecurePassword in
serveur/services/password.ts (lines 212-215). -/
def lowercaseChars : List Char := "abcdefghijklmnopqrstuvwxyz".data

def uppercaseChars : List Char := "ABCDEFGHIJKLMNOPQRSTUVWXYZ".data

def numberChars : List Char := "0123456789".data

def symbolChars : List Char := "!@#$%^&*()_+-=[]\x7b\x7d|;:,.<>?".data

def allChars : List Char := lowercaseChars ++ uppercaseChars ++ numberChars ++ symbolChars

/-- Random pick from an array, modelling
array[Math.floor(Math.random() * array.length)] of the source; the caller
supplies a stream of random naturals, reduced into range by the modulus. -/
def getRandomElement (l : List Char) (r : Nat) : Char := l.getD (r % l.length) ' '

/-- Initial password array of generateSecurePassword (lines 220-225): one
guaranteed character of each of the four classes, in source order, before
padding and shuffling. -/
def passwordBase (rand : Nat → Nat) : List Char :=
  [getRandomElement lowercaseChars (rand 0),
   getRandomElement uppercaseChars (rand 1),
   getRandomElement numberChars (rand 2),
   getRandomElement symbolChars (rand 3)]

/-- Padding loop of generateSecurePassword (lines 228-230): while the
password array is shorter than the requested length, push one random
character from the full alphabet. -/
def padPassword (rand : Nat → Nat) (length k : Nat) (acc : List Char) : List Char :=
  if acc.length < length then
    padPassword rand length (k + 1) (acc ++ [getRandomElement allChars (rand k)])
  else acc
termination_by length - acc.length
decreasing_by simp only [List.length_append, List.length_cons, List.length_nil]; omega

/-- generateSecurePassword of serveur/services/password.ts (lines 207-236):
four guaranteed class characters, padding up to the requested length
(default 16 in the source), then a shuffle (the sort with a random
comparator, which rearranges the array; it is a parameter here, constrained
to a permutation in the theorems). The source contains no length check and
no throw. -/
def generateSecurePassword (rand : Nat → Nat) (shuffle : List Char → List Char)
    (length : Nat) : List Char :=
  shuffle (padPassword rand length 4 (passwordBase rand))

theorem getD_mem_of_lt : ∀ (l : List Char) (n : Nat) (d : Char), n < l.length →
    l.getD n d ∈ l
  | [], _, _, h => absurd h (by simp)
  | a :: l, 0, _, _ => List.mem_cons_self a l
  | a :: l, n + 1, d, h =>
    List.mem_cons_of_mem a (getD_mem_of_lt l n d (Nat.lt_of_succ_lt_succ h))

theorem getRandomElement_mem (l : List Char) (r : Nat) (h : l ≠ []) :
    getRandomElement l r ∈ l :=
  getD_mem_of_lt l (r % l.length) ' ' (Nat.mod_lt _ (List.length_pos.mpr h))

theorem padPassword_length (rand : Nat → Nat) (length : Nat) :
    ∀ n k acc, length - acc.length = n →
      (padPassword rand length k acc).length = max acc.length length := by
  intro n
  induction n with
  | zero =>
    intro k acc h
    rw [padPassword, if_neg (by omega)]
    omega
  | succ m ih =>
    intro k acc h
    by_cases hlt : acc.length < length
    · rw [padPassword, if_pos hlt]
      rw [ih (k + 1) (acc ++ [getRandomElement allChars (rand k)]) (by simp; omega)]
      simp only [List.length_append, List.length_cons, List.length_nil]
      omega
    · rw [padPassword, if_neg hlt]
      omega

theorem padPassword_mem (rand : Nat → Nat) (length : Nat) :
    ∀ n k acc x, length - acc.length = n → x ∈ acc →
      x ∈ padPassword rand length k acc := by
  intro n
  induction n with
  | zero =>
    intro k acc x h hx
    rw [padPassword, if_neg (by omega)]
    exact hx
  | succ m ih =>
    intro k acc x h hx
    by_cases hlt : acc.length < length
    · rw [padPassword, if_pos hlt]
      exact ih (k + 1) _ x (by simp; omega) (List.mem_append_left _ hx)
    · rw [padPassword, if_neg hlt]
      exact hx

/-- C7 counterexample: generateStrongPassword(2) does not raise; the source
function has no length check and no throw, and the call returns the
four-character password made of the guaranteed class characters (here with
the all-zero random stream and the identity shuffle). -/
theorem generateSecurePassword_two_returns :
    generateSecurePassword (fun _ => 0) (fun l => l) 2 = ['a', 'A', '0', '!'] := by
  rw [generateSecurePassword, padPassword, if_neg (by decide)]
  decide

/-- C7 amended: for every requested length (in particular every length
below 4), generateSecurePassword returns a password rather than raising; the
result has length max 4 length (so a request below 4 silently yields a
4-character password) and always contains at least one lowercase letter,
one uppercase letter, one digit and one symbol. -/
theorem generateSecurePassword_spec (length : Nat) (rand : Nat → Nat)
    (shuffle : List Char → List Char) (hs : ∀ l, (shuffle l).Perm l) :
    (generateSecurePassword rand shuffle length).length = max 4 length ∧
    (∃ c ∈ generateSecurePassword rand shuffle length, c ∈ lowercaseChars) ∧
    (∃ c ∈ generateSecurePassword rand shuffle length, c ∈ uppercaseChars) ∧
    (∃ c ∈ generateSecurePassword rand shuffle length, c ∈ numberChars) ∧
    (∃ c ∈ generateSecurePassword rand shuffle length, c ∈ symbolChars) := by
  have hperm := hs (padPassword rand length 4 (passwordBase rand))
  have hbase : (passwordBase rand).length = 4 := rfl
  have hmem : ∀ x ∈ passwordBase rand,
      x ∈ generateSecurePassword rand shuffle length := by
    intro x hx
    rw [generateSecurePassword, hperm.mem_iff]
    exact padPassword_mem rand length _ 4 _ x rfl hx
  refine ⟨?_, ?_, ?_, ?_, ?_⟩
  · rw [generateSecurePassword, hperm.length_eq,
      padPassword_length rand length _ 4 _ rfl, hbase]
  · exact ⟨getRandomElement lowercaseChars (rand 0),
      hmem _ (by simp [passwordBase]),
      getRandomElement_mem lowercaseChars (rand 0) (by decide)⟩
  · exact ⟨getRandomElement uppercaseChars (rand 1),
      hmem _ (by simp [passwordBase]),
      getRandomElement_mem uppercaseChars (rand 1) (by decide)⟩
  · exact ⟨getRandomElement numberChars (rand 2),
      hmem _ (by simp [passwordBase]),
      getRandomElement_mem numberChars (rand 2) (by decide)⟩
  · exact ⟨getRandomElement symbolChars (rand 3),
      hmem _ (by simp [passwordBase]),
      getRandomElement_mem symbolChars (rand 3) (by decide)⟩

/-- Witness for the amended C7 theorem at the concrete length-2 call. -/
theorem generateSecurePassword_spec_witness :
    (generateSecurePassword (fun _ => 0) (fun l => l) 2).length = max 4 2 :=
  (generateSecurePassword_spec 2 (fun _ => 0) (fun l => l)
    (fun l => List.Perm.refl l)).1

/-- Presence of an uppercase letter, the test of the regular expression
checking A-Z in checkPasswordStrength. -/
def hasUppercase (p : List Char) : Bool := p.any fun c => decide ('A' ≤ c ∧ c ≤ 'Z')

/-- Presence of a lowercase letter (regular expression a-z). -/
def hasLowercase (p : List Char) : Bool := p.any fun c => decide ('a' ≤ c ∧ c ≤ 'z')

/-- Presence of a digit (regular expression 0-9). -/
def hasDigit (p : List Char) : Bool := p.any fun c => decide ('0' ≤ c ∧ c ≤ '9')

/-- Presence of a special character: anything outside A-Z, a-z and 0-9,
the negated character class of the source. -/
def hasSpecialChar (p : List Char) : Bool :=
  p.any fun c => decide (¬('A' ≤ c ∧ c ≤ 'Z') ∧ ¬('a' ≤ c ∧ c ≤ 'z') ∧ ¬('0' ≤ c ∧ c ≤ '9'))

def msgLongueur : String := "Le mot de passe doit contenir au moins 8 caractères"

def msgMajuscule : String := "Ajouter au moins une majuscule"

def msgMinuscule : String := "Ajouter au moins une minuscule"

def msgChiffre : String := "Ajouter au moins un chiffre"

def msgSpecial : String := "Ajouter au moins un caractère spécial"

def msgFort : String := "Mot de passe fort"

/-- checkPasswordStrength of serveur/services/password.ts (lines 241-292):
six score criteria (length at least 8, uppercase, lowercase, digit, special
character, length at least 12); the first five push a feedback message when
they fail, the sixth only adds to the score; an empty feedback list is
replaced by the single strong-password sentinel. -/
def checkPasswordStrength (password : List Char) : Nat × List String :=
  let score :=
    (if 8 ≤ password.length then 1 else 0) +
    (if hasUppercase password then 1 else 0) +
    (if hasLowercase password then 1 else 0) +
    (if hasDigit password then 1 else 0) +
    (if hasSpecialChar password then 1 else 0) +
    (if 12 ≤ password.length then 1 else 0)
  let feedback :=
    (if 8 ≤ password.length then [] else [msgLongueur]) ++
    (if hasUppercase password then [] else [msgMajuscule]) ++
    (if hasLowercase password then [] else [msgMinuscule]) ++
    (if hasDigit password then [] else [msgChiffre]) ++
    (if hasSpecialChar password then [] else [msgSpecial])
  (score, if feedback = [] then [msgFort] else feedback)

/-- Reference list built from the spec wording for C8: one message for each
failed criterion, in the fixed source order, restricted to the five
criteria that produce feedback in the source. -/
def failedCriteria (password : List Char) : List String :=
  (if 8 ≤ password.length then [] else [msgLongueur]) ++
  (if hasUppercase password then [] else [msgMajuscule]) ++
  (if hasLowercase password then [] else [msgMinuscule]) ++
  (if hasDigit password then [] else [msgChiffre]) ++
  (if hasSpecialChar password then [] else [msgSpecial])

/-- C8 counterexample: an eight-character password satisfying the five
feedback criteria but shorter than twelve characters scores 5, not the
maximum 6, yet receives the strong-password sentinel — so the sentinel is
not returned exactly when the score is 6. -/
theorem checkPasswordStrength_sentinel_at_five :
    (checkPasswordStrength ("Abcd12!@".data)).1 = 5 ∧
    (checkPasswordStrength ("Abcd12!@".data)).1 ≠ 6 ∧
    (checkPasswordStrength ("Abcd12!@".data)).2 = [msgFort] := by
  refine ⟨?_, ?_, ?_⟩ <;> decide

/-- C8 amended: the feedback is never empty; it lists one message for each
failed criterion among the five feedback-producing criteria (length at
least 8, uppercase, lowercase, digit, special character) in the fixed
source order; and it equals the strong-password sentinel exactly when those
five criteria all pass — which can happen at score 5 (when the password is
shorter than 12), not only at the maximum score 6. The length-12 criterion
contributes to the score but never to the feedback. -/
theorem checkPasswordStrength_feedback_spec (password : List Char) :
    (checkPasswordStrength password).2 ≠ [] ∧
    (checkPasswordStrength password).2 =
      (if failedCriteria password = [] then [msgFort] else failedCriteria password) ∧
    ((checkPasswordStrength password).2 = [msgFort] ↔ failedCriteria password = []) ∧
    (failedCriteria password = [] ↔
      (8 ≤ password.length ∧ hasUppercase password = true ∧ hasLowercase password = true ∧
        hasDigit password = true ∧ hasSpecialChar password = true)) := by
  have heq : (checkPasswordStrength password).2 =
      (if failedCriteria password = [] then [msgFort] else failedCriteria password) := rfl
  refine ⟨?_, heq, ?_, ?_⟩
  · rw [heq]
    split
    · simp
    · assumption
  · rw [heq]
    constructor
    · intro h
      by_contra hne
      rw [if_neg hne] at h
      have hmem : msgFort ∈ failedCriteria password := h ▸ List.mem_cons_self _ _
      revert hmem
      unfold failedCriteria
      split_ifs <;> decide
    · intro h
      rw [if_pos h]
  · unfold failedCriteria
    split_ifs <;> simp_all

/-- Application error of serveur/types/index.ts: the AppError class carries
a message and an HTTP status (the constructor order of the source). -/
structure AppErreur where
  message : String
  status : Nat
deriving DecidableEq

/-- Row of the mots_de_passe table used by serveur/services/password.ts. -/
structure PasswordRow where
  id : Nat
  utilisateur_id : Nat
  site_web : String
  identifiant : String
  mot_de_passe_crypte : String
  notes : Option String
deriving DecidableEq

/-- passwordService.create of serveur/services/password.ts (lines 14-48):
the secret is passed through bcrypt.hash (modelled by the abstract hash
function bh) and the hashed value is inserted; the insert returns the full
row with the server-assigned id (modelled by the fresh-id parameter). -/
def tsCreate (bh : String → String) (table : List PasswordRow) (newId uid : Nat)
    (site ident mdp : String) (notes : Option String) :
    List PasswordRow × PasswordRow :=
  let row : PasswordRow := ⟨newId, uid, site, ident, bh mdp, notes⟩
  (table ++ [row], row)

/-- passwordService.findById of serveur/services/password.ts (lines 73-93):
select by id and owner; an empty result throws AppError 404, otherwise the
first row is returned unchanged — the service performs no decryption. -/
def tsFindById (table : List PasswordRow) (id uid : Nat) :
    Except AppErreur PasswordRow :=
  match (table.filter fun r => decide (r.id = id ∧ r.utilisateur_id = uid)).head? with
  | none => Except.error ⟨"Mot de passe non trouvé", 404⟩
  | some r => Except.ok r

/-- C1 evaluation theorem (the claim fails on the code): storing a secret
through passwordService.create records only its bcrypt hash, and the
subsequent fetch for the same (id, owner) returns that hash unchanged — the
service has no decryption step — so whenever the hash differs from the
plaintext (always, for bcrypt) the reveal cannot carry the original
plaintext secret. -/
theorem tsCreate_findById_hash_only (bh : String → String) (table : List PasswordRow)
    (newId uid : Nat) (site ident mdp : String) (notes : Option String)
    (hfresh : ∀ r ∈ table, r.id ≠ newId)
    (hbh : bh mdp ≠ mdp) :
    tsFindById (tsCreate bh table newId uid site ident mdp notes).1 newId uid =
      Except.ok (tsCreate bh table newId uid site ident mdp notes).2 ∧
    (tsCreate bh table newId uid site ident mdp notes).2.mot_de_passe_crypte = bh mdp ∧
    (tsCreate bh table newId uid site ident mdp notes).2.mot_de_passe_crypte ≠ mdp := by
  refine ⟨?_, rfl, hbh⟩
  rw [tsFindById, tsCreate]
  have hfil : (table.filter fun r => decide (r.id = newId ∧ r.utilisateur_id = uid)) = [] := by
    rw [List.filter_eq_nil_iff]
    intro r hr
    simp only [decide_eq_true_eq, not_and]
    intro hid
    exact absurd hid (hfresh r hr)
  rw [List.filter_append, hfil]
  simp

/-- Witness for the C1 evaluation theorem on a concrete store and a
concrete one-way-looking hash. -/
theorem tsCreate_findById_hash_only_witness :
    tsFindById (tsCreate (fun s => "x" ++ s) [] 1 1 "example.com" "alice" "hunter2" none).1
        1 1 =
      Except.ok (tsCreate (fun s => "x" ++ s) [] 1 1 "example.com" "alice" "hunter2" none).2 ∧
    (tsCreate (fun s => "x" ++ s) [] 1 1 "example.com" "alice" "hunter2"
        none).2.mot_de_passe_crypte = (fun s => "x" ++ s) "hunter2" ∧
    (tsCreate (fun s => "x" ++ s) [] 1 1 "example.com" "alice" "hunter2"
        none).2.mot_de_passe_crypte ≠ "hunter2" :=
  tsCreate_findById_hash_only (fun s => "x" ++ s) [] 1 1 "example.com" "alice" "hunter2"
    none (by simp) (by decide)

/-- C9: cross-owner isolation. When every row carrying the requested id
belongs to owner A, fetching it as a different owner B yields exactly the
404 not-found AppError — and any store holding no row with that id at all
yields the very same error value, so a cross-owner access is
indistinguishable from absence; in particular the status is 404, never the
403 of an authorization error. -/
theorem tsFindById_cross_owner (table : List PasswordRow) (id ownerA ownerB : Nat)
    (hAB : ownerB ≠ ownerA)
    (hown : ∀ r ∈ table, r.id = id → r.utilisateur_id = ownerA) :
    tsFindById table id ownerB = Except.error ⟨"Mot de passe non trouvé", 404⟩ ∧
    (∀ table2 : List PasswordRow, (∀ r ∈ table2, r.id ≠ id) →
      tsFindById table2 id ownerB = Except.error ⟨"Mot de passe non trouvé", 404⟩) := by
  constructor
  · rw [tsFindById]
    have hfil : (table.filter fun r => decide (r.id = id ∧ r.utilisateur_id = ownerB)) = [] := by
      rw [List.filter_eq_nil_iff]
      intro r hr
      simp only [decide_eq_true_eq, not_and]
      intro hid
      rw [hown r hr hid]
      exact fun h => hAB h.symm
    rw [hfil]
    rfl
  · intro table2 habs
    rw [tsFindById]
    have hfil : (table2.filter fun r => decide (r.id = id ∧ r.utilisateur_id = ownerB)) = [] := by
      rw [List.filter_eq_nil_iff]
      intro r hr
      simp only [decide_eq_true_eq, not_and]
      intro hid
      exact absurd hid (habs r hr)
    rw [hfil]
    rfl

/-- Witness for C9: a one-row store owned by owner 1, queried as owner 2. -/
theorem tsFindById_cross_owner_witness :
    tsFindById [⟨7, 1, "example.com", "alice", "h", none⟩] 7 2 =
      Except.error ⟨"Mot de passe non trouvé", 404⟩ :=
  (tsFindById_cross_owner [⟨7, 1, "example.com", "alice", "h", none⟩] 7 1 2
    (by decide) (by simp)).1

/-- JavaScript truthiness of an optional string field, as tested by the
update guards of passwordService.update: an absent field and the empty
string are both falsy. -/
def truthy : Option String → Bool
  | none => false
  | some s => decide (s ≠ "")

/-- Update payload of passwordService.update. The notes field distinguishes
JavaScript undefined (outer none — field absent) from null (some none),
because the source tests data.notes with strict undefined inequality. -/
structure UpdateData where
  site_web : Option String
  identifiant : Option String
  mot_de_passe : Option String
  notes : Option (Option String)

/-- Observable calls of passwordService.update: the bcrypt hashing of a new
secret, and the SQL update issued to the store. -/
inductive TsEffect where
  | bcryptCall
  | storeQuery
deriving DecidableEq

/-- Application of the collected update fields to a row, mirroring the SET
clause assembled by passwordService.update (modifie_le is refreshed by the
store and is not modelled). -/
def applyUpdate (data : UpdateData) (mdpc : Option String) (r : PasswordRow) :
    PasswordRow :=
  { r with
    site_web := if truthy data.site_web then data.site_web.getD r.site_web else r.site_web
    identifiant :=
      if truthy data.identifiant then data.identifiant.getD r.identifiant else r.identifiant
    mot_de_passe_crypte :=
      if truthy mdpc then mdpc.getD r.mot_de_passe_crypte else r.mot_de_passe_crypte
    notes := match data.notes with
      | none => r.notes
      | some v => v }

/-- passwordService.update of serveur/services/password.ts (lines 98-174):
bcrypt runs only when a truthy new secret is supplied; each truthy field
(and a notes field that is not undefined) joins the SET clause; an empty
SET clause throws AppError 400 before any query is issued; otherwise the
update runs scoped by (id, owner) and an empty result throws AppError 404.
The result carries the effect trace, the resulting table and the outcome. -/
def tsUpdate (bh : String → String) (table : List PasswordRow) (id uid : Nat)
    (data : UpdateData) :
    List TsEffect × List PasswordRow × Except AppErreur PasswordRow :=
  let bcryptEffects : List TsEffect :=
    if truthy data.mot_de_passe then [TsEffect.bcryptCall] else []
  let mdpc : Option String :=
    if truthy data.mot_de_passe then some (bh (data.mot_de_passe.getD "")) else none
  let nbFields : Nat :=
    (if truthy data.site_web then 1 else 0) +
    (if truthy data.identifiant then 1 else 0) +
    (if truthy mdpc then 1 else 0) +
    (if data.notes ≠ none then 1 else 0)
  if nbFields = 0 then
    (bcryptEffects, table, Except.error ⟨"Aucune donnée à mettre à jour", 400⟩)
  else
    match (table.filter fun r => decide (r.id = id ∧ r.utilisateur_id = uid)).head? with
    | none =>
      (bcryptEffects ++ [TsEffect.storeQuery], table,
        Except.error ⟨"Mot de passe non trouvé", 404⟩)
    | some r =>
      (bcryptEffects ++ [TsEffect.storeQuery],
        table.map fun x =>
          if x.id = id ∧ x.utilisateur_id = uid then applyUpdate data mdpc x else x,
        Except.ok (applyUpdate data mdpc r))

/-- C10: update no-op rejection. When the payload supplies no usable field
— site_web, identifiant and mot_de_passe each absent or empty, notes
undefined — tsUpdate raises the 400 no-fields error with an empty effect
trace: no bcrypt call, no store query, and the table is returned
unchanged. -/
theorem tsUpdate_noop (bh : String → String) (table : List PasswordRow) (id uid : Nat)
    (data : UpdateData)
    (h1 : truthy data.site_web = false)
    (h2 : truthy data.identifiant = false)
    (h3 : truthy data.mot_de_passe = false)
    (h4 : data.notes = none) :
    tsUpdate bh table id uid data =
      ([], table, Except.error ⟨"Aucune donnée à mettre à jour", 400⟩) := by
  simp only [tsUpdate, h1, h2, h3, h4]
  simp [truthy]

/-- Witness for C10 at the empty update payload. -/
theorem tsUpdate_noop_witness :
    tsUpdate (fun s => s) [] 1 1 ⟨none, none, none, none⟩ =
      ([], [], Except.error ⟨"Aucune donnée à mettre à jour", 400⟩) :=
  tsUpdate_noop (fun s => s) [] 1 1 ⟨none, none, none, none⟩ rfl rfl rfl rfl

/-- User row as read by verifierPin (only the selected column matters). -/
structure Utilisateur where
  id : Nat
  code_pin_hash : String
deriving DecidableEq

/-- Session row of the sessions table consulted by verifierToken. -/
structure Session where
  utilisateur_id : Nat
  token : String
  expire_le : Nat
deriving DecidableEq

/-- Row of the mots_de_passe_stockes table used by the
serveur/routes/motsDePasse.js handlers. -/
structure StoredPassword where
  id : Nat
  utilisateur_id : Nat
  site_web : String
  identifiant : String
  mot_de_passe_crypte : List Char
  notes : Option String
deriving DecidableEq

/-- Server-side state visible to the vault routes: the user, session and
stored-password tables plus the current time. -/
structure EtatServeur where
  utilisateurs : List Utilisateur
  sessions : List Session
  motsDePasseStockes : List StoredPassword
  now : Nat

/-- Incoming request: the authorization header, the pin field of the body,
and the id route parameter. -/
structure Requete where
  authorization : Option String
  pin : Option String
  param_id : Nat

/-- An HTTP response with its status and message. -/
structure Reponse where
  status : Nat
  message : String
deriving DecidableEq

/-- Token extraction of verifierToken:
req.headers.authorization?.split(' ')[1] — undefined when the header is
absent or has no second space-separated part. -/
def headerToken (authorization : Option String) : Option String :=
  match authorization with
  | none => none
  | some h => ((splitOnChar ' ' h.data)[1]?).map List.asString

/-- verifierToken of serveur/middleware/auth.js (security.ts lines
201-238): a missing token responds 401; a token rejected by jwt.verify
(modelled by the abstract verify parameter) lands in the catch and responds
401; a token without a live session row (matching user, matching token,
expiry in the future) responds 401; otherwise the decoded user id is bound
to the request and the chain continues. -/
def verifierToken (verify : String → Option Nat) (st : EtatServeur) (req : Requete) :
    Except Reponse Nat :=
  match headerToken req.authorization with
  | none => Except.error ⟨401, "No token provided"⟩
  | some token =>
    if token = "" then Except.error ⟨401, "No token provided"⟩
    else
      match verify token with
      | none => Except.error ⟨401, "Invalid token"⟩
      | some uid =>
        if (st.sessions.filter fun s =>
            decide (s.utilisateur_id = uid ∧ s.token = token ∧ st.now < s.expire_le)) = []
        then Except.error ⟨401, "Session expired"⟩
        else Except.ok uid

/-- Modelled from the source require list of serveur/middleware/auth.js
(security.ts lines 192-198): the module requires jsonwebtoken, the config,
the db helper, device-detector-js and geoip-lite, but never requires
bcrypt, so the bcrypt name used by verifierPin is unbound in that module
scope. -/
def authModuleBcrypt : Option (String → String → Bool) := none

/-- verifierPin of serveur/middleware/auth.js (security.ts lines 281-317):
a falsy pin responds 400; then the stored pin hash is queried and
bcrypt.compare is evaluated inside a try/catch whose handler responds 500.
Because the module never binds bcrypt (authModuleBcrypt is none),
evaluating bcrypt.compare raises a ReferenceError and the catch responds
500 before any comparison; the 401 invalid-pin branch and the success path
are modelled for completeness but are unreachable in the source as
written. -/
def verifierPin (st : EtatServeur) (req : Requete) (uid : Nat) : Except Reponse Unit :=
  match req.pin with
  | none => Except.error ⟨400, "PIN required"⟩
  | some pin =>
    if pin = "" then Except.error ⟨400, "PIN required"⟩
    else
      match authModuleBcrypt with
      | none => Except.error ⟨500, "Error verifying PIN"⟩
      | some cmp =>
        match (st.utilisateurs.filter fun u => decide (u.id = uid)).head? with
        | none => Except.error ⟨500, "Error verifying PIN"⟩
        | some u =>
          if cmp pin u.code_pin_hash then Except.ok ()
          else Except.error ⟨401, "Invalid PIN"⟩

/-- Observable calls to the protected components named by the spec's gate
ordering property: the credential-store query and the codec decryption. -/
inductive VaultEvent where
  | credStoreQuery
  | codecDecrypt
deriving DecidableEq

/-- GET /:id of serveur/routes/motsDePasse.js (lines 115-154), with its
declared middleware order verifierToken then verifierPin then the handler:
the handler queries mots_de_passe_stockes scoped by (id, owner), responds
404 on absence, otherwise decrypts the stored envelope and responds with
the record; the event trace records which protected components ran. -/
def getMotDePasseRoute (A : GcmPrimitive) (verify : String → Option Nat)
    (st : EtatServeur) (req : Requete) : Reponse × List VaultEvent :=
  match verifierToken verify st req with
  | Except.error r => (r, [])
  | Except.ok uid =>
    match verifierPin st req uid with
    | Except.error r => (r, [])
    | Except.ok _ =>
      match (st.motsDePasseStockes.filter fun r =>
          decide (r.id = req.param_id ∧ r.utilisateur_id = uid)).head? with
      | none => (⟨404, "Password not found"⟩, [VaultEvent.credStoreQuery])
      | some row =>
        match dechiffrer A row.mot_de_passe_crypte with
        | Except.error _ =>
          (⟨500, "Error retrieving password"⟩,
            [VaultEvent.credStoreQuery, VaultEvent.codecDecrypt])
        | Except.ok _ =>
          (⟨200, "Password retrieved successfully"⟩,
            [VaultEvent.credStoreQuery, VaultEvent.codecDecrypt])

/-- Helper: every rejection of verifierToken carries status 401. -/
theorem verifierToken_status (verify : String → Option Nat) (st : EtatServeur)
    (req : Requete) (r : Reponse) (h : verifierToken verify st req = Except.error r) :
    r.status = 401 := by
  unfold verifierToken at h
  repeat' split at h
  all_goals cases h
  all_goals rfl

/-- C5: gate ordering. Whenever the session check rejects the request (the
token is missing, invalid, or has no live session — exactly the error cases
of verifierToken), the route responds with that 401 rejection and the event
trace is empty: neither the credential store nor the envelope codec is
invoked, whatever PIN the request body carries, because verifierToken runs
before verifierPin and before the handler. -/
theorem getMotDePasseRoute_session_short_circuit (A : GcmPrimitive)
    (verify : String → Option Nat) (st : EtatServeur) (req : Requete) (r : Reponse)
    (h : verifierToken verify st req = Except.error r) :
    getMotDePasseRoute A verify st req = (r, []) ∧ r.status = 401 :=
  ⟨by simp only [getMotDePasseRoute, h], verifierToken_status verify st req r h⟩

/-- Witness for C5: a request without any token but with a PIN in the body
is rejected 401 with no store or codec event. -/
theorem getMotDePasseRoute_session_short_circuit_witness :
    getMotDePasseRoute idGcm (fun _ => none) ⟨[], [], [], 0⟩
        ⟨none, some ("123456"), 1⟩ =
      (⟨401, "No token provided"⟩, []) :=
  (getMotDePasseRoute_session_short_circuit idGcm (fun _ => none) ⟨[], [], [], 0⟩
    ⟨none, some ("123456"), 1⟩ ⟨401, "No token provided"⟩ rfl).1

/-- C4 evaluation theorem (the claim fails on the code): for every request
that passes the session check and carries a non-empty PIN — matching or not
— the PIN gate responds 500 (the bcrypt name is unbound in
middleware/auth.js, so bcrypt.compare raises and the catch answers 500),
not the 401 invalid-pin answer of the claim; the wrapped vault operation
still does not execute (empty event trace). -/
theorem getMotDePasseRoute_pin_responds_500 (A : GcmPrimitive)
    (verify : String → Option Nat) (st : EtatServeur) (req : Requete) (uid : Nat)
    (pin : String) (htok : verifierToken verify st req = Except.ok uid)
    (hpin : req.pin = some pin) (hne : pin ≠ "") :
    getMotDePasseRoute A verify st req = (⟨500, "Error verifying PIN"⟩, []) := by
  simp only [getMotDePasseRoute, htok, verifierPin, hpin, if_neg hne, authModuleBcrypt]

/-- Witness for the C4 evaluation theorem: a valid session and a submitted
PIN that does not match the stored hash still produce the 500 answer. -/
theorem getMotDePasseRoute_pin_responds_500_witness :
    getMotDePasseRoute idGcm (fun s => if s = "t" then some 1 else none)
        ⟨[⟨1, "storedhash"⟩], [⟨1, "t", 10⟩], [], 0⟩
        ⟨some ("Bearer t"), some ("000000"), 1⟩ =
      (⟨500, "Error verifying PIN"⟩, []) :=
  getMotDePasseRoute_pin_responds_500 idGcm (fun s => if s = "t" then some 1 else none)
    ⟨[⟨1, "storedhash"⟩], [⟨1, "t", 10⟩], [], 0⟩
    ⟨some ("Bearer t"), some ("000000"), 1⟩ 1 "000000" rfl rfl (by decide)
